import Mathlib

/-!
Verification development for the DITA-to-CSV converter
(`src/Ditatocsvnew2.py`).

The Python program is shallowly embedded: each Python function becomes a
Lean definition over an explicit document model, file I/O becomes an
`Except String Document` input (`.error e` models an exception raised
while opening or parsing the file, carrying the exception message), and
Python string primitives (`strip`, `lower`, `startswith`, `endswith`,
`replace`, substring `in`) are modelled as executable functions on
`String`.
-/

/-- Python `str.strip()`: remove leading and trailing whitespace. -/
def pyStrip (s : String) : String :=
  ⟨((s.data.dropWhile Char.isWhitespace).reverse.dropWhile Char.isWhitespace).reverse⟩

/-- Python `str.lower()` (ASCII case folding, as used by the program). -/
def pyLower (s : String) : String :=
  ⟨s.data.map Char.toLower⟩

/-- Python `s.startswith(pre)`. -/
def pyStartsWith (s pre : String) : Bool :=
  pre.data.isPrefixOf s.data

/-- Python `s.endswith(sfx)`. -/
def pyEndsWith (s sfx : String) : Bool :=
  sfx.data.isSuffixOf s.data

/-- Worker for `pyContains`: does `needle` occur as a contiguous run in
the list? -/
def containsSubAux (needle : List Char) : List Char → Bool
  | [] => needle.isEmpty
  | c :: rest => needle.isPrefixOf (c :: rest) || containsSubAux needle rest

/-- Python `needle in hay` for strings (substring containment). -/
def pyContains (hay needle : String) : Bool :=
  containsSubAux needle.data hay.data

/-- For a string known to end with `sfx`, the result of
`s.rsplit(sfx, 1)[0]`: the string with that final suffix removed. -/
def pyDropSuffix (s sfx : String) : String :=
  ⟨s.data.take (s.data.length - sfx.data.length)⟩

/-- Worker for `pyReplace`, on character lists; `fuel` bounds the number
of steps (one input character is consumed per step, at least). -/
def replaceAllAux (old new : List Char) : Nat → List Char → List Char
  | _, [] => []
  | 0, rest => rest
  | fuel + 1, c :: rest =>
    if old.isPrefixOf (c :: rest) then
      new ++ replaceAllAux old new fuel ((c :: rest).drop old.length)
    else
      c :: replaceAllAux old new fuel rest

/-- Python `s.replace(old, new)`: replace every (left-to-right,
non-overlapping) occurrence of `old`.  The program only calls it with
non-empty `old`, so the empty-pattern case is immaterial. -/
def pyReplace (s old new : String) : String :=
  if old.data.isEmpty then s
  else ⟨replaceAllAux old.data new.data s.data.length s.data⟩

/-! ## Document model

A parsed XML tree, reduced to exactly the shape the program queries:
the first `<title>` element's text, the `<dlentry>` elements (each with
the text of its first `<dt>` and first `<dd>` descendant, when present),
and the `<entry>` table cells (each with its `<p>`/`<li>` descendants in
document order).  Texts are stored raw; `get_text(strip=True)` is
modelled by applying `pyStrip` at each use site. -/

/-- Tag of an element found by `entry.find_all(["li", "p"])`. -/
inductive ItemTag where
  | li
  | p
deriving DecidableEq, Repr

/-- A `<p>` or `<li>` descendant of a table-cell `<entry>`. -/
structure Item where
  tag : ItemTag
  text : String
deriving DecidableEq, Repr

/-- A table-cell `<entry>` with its `<p>`/`<li>` descendants in document
order. -/
structure Entry where
  items : List Item
deriving DecidableEq, Repr

/-- A `<dlentry>`: text of its first `<dt>` and first `<dd>` descendant
(`none` when the element is absent, matching `find` returning `None`). -/
structure DLEntry where
  dt : Option String
  dd : Option String
deriving DecidableEq, Repr

/-- A parsed document: optional `<title>` text, `<dlentry>` list and
table-cell `<entry>` list, each in document order. -/
structure Document where
  title : Option String
  dlentries : List DLEntry
  entries : List Entry
deriving DecidableEq, Repr

/-- The `<p>` children of an `entry`, as stripped texts, in order:
models `[p.get_text(strip=True) for p in entry.find_all("p")]`. -/
def Entry.pTexts (e : Entry) : List String :=
  (e.items.filter (fun i => i.tag = ItemTag.p)).map (fun i => pyStrip i.text)

/-- All `<li>` and `<p>` descendants of an `entry`, as stripped texts,
in document order: models `entry.find_all(["li", "p"])` plus
`get_text(strip=True)`. -/
def Entry.liPTexts (e : Entry) : List String :=
  e.items.map (fun i => pyStrip i.text)

/-! ## JSON serialization (`json.dumps` on the custom-fields list) -/

/-- One exported manual-test step (`{"fields": {...}}` in the Python
code). -/
structure StepRecord where
  action : String
  data : String
  expected : String
deriving DecidableEq, Repr

/-- Escape one character as Python's `json.dumps` does for the
characters this program can produce. -/
def jsonEscapeChar (c : Char) : String :=
  if c = '"' then "\\\""
  else if c = '\\' then "\\\\"
  else if c = '\n' then "\\n"
  else if c = '\t' then "\\t"
  else if c = '\r' then "\\r"
  else String.singleton c

/-- Escape a string for a JSON string literal. -/
def jsonEscape (s : String) : String :=
  String.join (s.data.map jsonEscapeChar)

/-- A JSON string literal. -/
def jsonStr (s : String) : String :=
  "\"" ++ jsonEscape s ++ "\""

/-- Serialization (`json.dumps`) of one element of the `custom_fields` list. -/
def dumps_step (r : StepRecord) : String :=
  "\x7b\"fields\": \x7b\"Action\": " ++ jsonStr r.action
    ++ ", \"Data\": " ++ jsonStr r.data
    ++ ", \"Expected Result\": " ++ jsonStr r.expected ++ "\x7d\x7d"

/-- Serialization `json.dumps(custom_fields)`. -/
def dumps_custom_fields (cf : List StepRecord) : String :=
  "[" ++ String.intercalate ", " (cf.map dumps_step) ++ "]"

/-! ## `extract_premise_and_requirement` -/

/-- Body of the inner paragraph loop of
`extract_premise_and_requirement`: state is `(premise, requirement)`,
`text` is `p.get_text(strip=True)`. -/
def eprStep (acc : String × String) (text : String) : String × String :=
  if pyStartsWith text "Premise:" then
    (pyStrip (pyReplace text "Premise:" ""), acc.2)
  else if pyStartsWith text "Requirement:" then
    (acc.1, acc.2 ++ pyStrip (pyReplace text "Requirement:" "") ++ "\n")
  else acc

/-- The `try`-block of `extract_premise_and_requirement`, on an already
parsed document. -/
def epr_core (doc : Document) : String :=
  let st := doc.entries.foldl (fun acc entry => entry.pTexts.foldl eprStep acc) ("", "")
  "Premise:\n" ++ st.1 ++ "\nRequirement:\n" ++ pyStrip st.2

/-- Model of `extract_premise_and_requirement(file_path)`: result plus the lines
printed.  `input` is the outcome of opening and parsing the file. -/
def extract_premise_and_requirement (file_path : String)
    (input : Except String Document) : String × List String :=
  match input with
  | Except.ok doc => (epr_core doc, [])
  | Except.error e =>
    ("", ["Error extracting Premise and Requirement from " ++ file_path ++ ": " ++ e])

/-! ## `extract_xd_note` -/

/-- The sibling-collection loop of `extract_xd_note`: state is
`(xd_notes, seen_notes)`; `texts` are the stripped texts of
`entry.find_all(["li", "p"])`. -/
def xdCollect (st : List String × List String) (texts : List String) :
    List String × List String :=
  texts.foldl
    (fun st note_text =>
      if note_text ≠ "" ∧ note_text ∉ st.2 then
        (st.1 ++ [note_text], st.2 ++ [note_text])
      else st)
    st

/-- One iteration of the outer entry loop of `extract_xd_note`. -/
def xdEntryStep (st : List String × List String) (entry : Entry) :
    List String × List String :=
  entry.pTexts.foldl
    (fun st ptext => if pyLower ptext = "xd note" then xdCollect st entry.liPTexts else st)
    st

/-- The `xd_notes` list accumulated by `extract_xd_note`. -/
def xd_note_list (doc : Document) : List String :=
  (doc.entries.foldl xdEntryStep ([], [])).1

/-- The `try`-block of `extract_xd_note` on a parsed document. -/
def xd_note_core (doc : Document) : String :=
  String.intercalate "\n" (xd_note_list doc)

/-- Model of `extract_xd_note(file_path)`: result plus printed lines. -/
def extract_xd_note (file_path : String) (input : Except String Document) :
    String × List String :=
  match input with
  | Except.ok doc => (xd_note_core doc, [])
  | Except.error e =>
    ("", ["Error extracting xd Notes from " ++ file_path ++ ": " ++ e])

/-! ## `extract_section_content` -/

/-- Model of `extract_section_content(soup, section_name)`.  Its `try` can only
fail on a malformed tree, which the parsed `Document` excludes, so no
error branch arises here. -/
def extract_section_content (doc : Document) (section_name : String) : String :=
  let content := doc.dlentries.foldl
    (fun content dlentry =>
      match dlentry.dt, dlentry.dd with
      | some dt, some dd =>
        if pyContains (pyLower (pyStrip dt)) (pyLower section_name) then
          content ++ [pyStrip dd]
        else content
      | _, _ => content)
    []
  String.intercalate "\n" content

/-! ## `parse_testcase_dita` -/

/-- The `custom_fields` loop of `parse_testcase_dita`. -/
def tc_custom_fields (doc : Document) : List StepRecord :=
  doc.dlentries.foldl
    (fun cf dlentry =>
      match dlentry.dt with
      | some dt =>
        if pyStartsWith (pyStrip dt) "R" then
          let entry_id := pyStrip dt
          let expected_results := extract_section_content doc "Expected Results"
          let procedures := extract_section_content doc "Procedures"
          let notes := extract_section_content doc "Notes"
          cf ++ [{ action := "*" ++ entry_id ++ "*\n" ++ procedures,
                   data := "*Notes:*\n" ++ notes,
                   expected := expected_results }]
        else cf
      | none => cf)
    []

/-- The title rule shared by `parse_dita` and `parse_testcase_dita`:
`title_tag.get_text(strip=True) if title_tag else "Unknown Title"`. -/
def titleOf (doc : Document) : String :=
  match doc.title with
  | some t => pyStrip t
  | none => "Unknown Title"

/-- Model of `parse_testcase_dita(file_path)`: `(title, xd_note, custom_fields)`
(`none` models the all-`None` tuple returned on an exception) plus
printed lines.  It re-reads the same file for `extract_xd_note`. -/
def parse_testcase_dita (file_path : String) (input : Except String Document) :
    Option (String × String × List StepRecord) × List String :=
  match input with
  | Except.ok doc =>
    let xd := extract_xd_note file_path input
    (some (titleOf doc, xd.1, tc_custom_fields doc), xd.2)
  | Except.error e => (none, ["Error parsing " ++ file_path ++ ": " ++ e])

/-! ## `parse_dita` -/

/-- The `dlentry` loop of `parse_dita`: state is
`(description, premise, requirements)`. -/
def parseDitaStep (st : List String × String × String) (dlentry : DLEntry) :
    List String × String × String :=
  match dlentry.dt, dlentry.dd with
  | some dt, some dd =>
    let header := pyLower (pyStrip dt)
    let body := pyStrip dd
    if header = "premise" then (st.1, body, st.2.2)
    else if header = "requirements" then (st.1, st.2.1, body)
    else (st.1 ++ [pyStrip dt ++ ":\n" ++ body], st.2.1, st.2.2)
  | _, _ => st

/-- Model of `parse_dita(file_path)`:
`(title, description, premise, requirements)` (`none` models the
all-`None` tuple returned on an exception) plus printed lines. -/
def parse_dita (file_path : String) (input : Except String Document) :
    Option (String × String × String × String) × List String :=
  match input with
  | Except.ok doc =>
    let st := doc.dlentries.foldl parseDitaStep ([], "", "")
    (some (titleOf doc, String.intercalate "\n\n" st.1, st.2.1, st.2.2), [])
  | Except.error e => (none, ["Error parsing " ++ file_path ++ ": " ++ e])

/-! ## `process_folder` -/

/-- Python `dict` assignment `d[k] = v` on an insertion-ordered
association list: an existing key keeps its position and gets the new
value, a new key goes to the end. -/
def dictInsert (d : List (String × String)) (k v : String) : List (String × String) :=
  if d.any (fun q => q.1 = k) then
    d.map (fun q => if q.1 = k then (k, v) else q)
  else d ++ [(k, v)]

/-- The `base_files` dict of `process_folder`:
`{f.rsplit("_testcase.dita", 1)[0]: f for f in files if f.endswith("_testcase.dita")}`. -/
def base_files (files : List String) : List (String × String) :=
  (files.filter (fun f => pyEndsWith f "_testcase.dita")).foldl
    (fun d f => dictInsert d (pyDropSuffix f "_testcase.dita") f) []

/-- The `matched_files` list of `process_folder`, from the raw folder
listing (`os.listdir`). -/
def matched_files (listing : List String) : List (String × String) :=
  let files := listing.filter (fun f => pyEndsWith f ".dita")
  (base_files files).filterMap (fun bv =>
    if (bv.1 ++ ".dita") ∈ files then some (bv.1 ++ ".dita", bv.2) else none)

/-- The body of the `for base_file, testcase_file in matched_files`
loop: the `OutputRow` appended to `data`, or `none` when the pair is
skipped by `if base_title and testcase_title` (Python truthiness:
`None` and `""` are falsy). -/
def pair_row (base_path tc_path : String)
    (base_input tc_input : Except String Document) : Option (List String) :=
  let custom_field_premise := (extract_premise_and_requirement base_path base_input).1
  match (parse_dita base_path base_input).1, (parse_testcase_dita tc_path tc_input).1 with
  | some (base_title, base_description, _premise, _requirements),
    some (testcase_title, xd_note, custom_fields) =>
    if base_title ≠ "" ∧ testcase_title ≠ "" then
      some [base_title, base_description, custom_field_premise,
            dumps_custom_fields custom_fields, xd_note]
    else none
  | _, _ => none

/-- The `data` rows assembled by `process_folder`.  `listing` is the
folder listing; `read f` is the outcome of opening and parsing the file
named `f` in that folder. -/
def process_folder_data (listing : List String)
    (read : String → Except String Document) : List (List String) :=
  (matched_files listing).foldl
    (fun data pr =>
      match pair_row pr.1 pr.2 (read pr.1) (read pr.2) with
      | some row => data ++ [row]
      | none => data)
    []

/-- The header row written before `data` by `process_folder`. -/
def csv_header : List String :=
  ["Summary", "Description", "Custom field (Premise)",
   "Custom Field Manual Test Steps", "Custom Field (xd Notes)"]

/-- All rows written to the CSV file (header first). -/
def process_folder_rows (listing : List String)
    (read : String → Except String Document) : List (List String) :=
  csv_header :: process_folder_data listing read

/-! ## Hoisted variant of the step-record loop (spec §9, claim C9)

Identical to `tc_custom_fields` except that the three
`extract_section_content` calls are computed once before the loop
instead of once per qualifying term. -/

/-- Variant of `tc_custom_fields` with the section-content lookups hoisted out of
the loop. -/
def tc_custom_fields_hoisted (doc : Document) : List StepRecord :=
  let expected_results := extract_section_content doc "Expected Results"
  let procedures := extract_section_content doc "Procedures"
  let notes := extract_section_content doc "Notes"
  doc.dlentries.foldl
    (fun cf dlentry =>
      match dlentry.dt with
      | some dt =>
        if pyStartsWith (pyStrip dt) "R" then
          cf ++ [{ action := "*" ++ pyStrip dt ++ "*\n" ++ procedures,
                   data := "*Notes:*\n" ++ notes,
                   expected := expected_results }]
        else cf
      | none => cf)
    []

/-! ## Spec-side (declarative) forms used to state the claims -/

/-- The entry selected from a `dlentry` by `extract_section_content`:
its stripped `<dd>` text, when both children exist and the section name
occurs case-insensitively in the stripped `<dt>` text. -/
def sectionSelect (section_name : String) (dlentry : DLEntry) : Option String :=
  match dlentry.dt, dlentry.dd with
  | some dt, some dd =>
    if pyContains (pyLower (pyStrip dt)) (pyLower section_name) then some (pyStrip dd)
    else none
  | _, _ => none

/-- The stripped `<dt>` texts that qualify for a step record: those
starting with `"R"`, in document order. -/
def qualifyingTerms (doc : Document) : List String :=
  doc.dlentries.filterMap (fun dlentry =>
    match dlentry.dt with
    | some dt => if pyStartsWith (pyStrip dt) "R" then some (pyStrip dt) else none
    | none => none)

/-- The step record built for one qualifying term. -/
def stepRecordFor (doc : Document) (term : String) : StepRecord :=
  { action := "*" ++ term ++ "*\n" ++ extract_section_content doc "Procedures",
    data := "*Notes:*\n" ++ extract_section_content doc "Notes",
    expected := extract_section_content doc "Expected Results" }

/-- First-occurrence-wins deduplication, given the set (as a list) of
already seen values: returns the not-yet-seen values in order. -/
def dedupFirstAux (seen : List String) : List String → List String
  | [] => []
  | x :: xs =>
    if x ∈ seen then dedupFirstAux seen xs
    else x :: dedupFirstAux (seen ++ [x]) xs

/-- Ordered, case-sensitive, first-occurrence-wins deduplication. -/
def dedupFirst (l : List String) : List String :=
  dedupFirstAux [] l

/-- The texts scanned by one entry of `extract_xd_note`, in encounter
order: once per marker paragraph (a `<p>` whose stripped, lowered text
is `"xd note"`), all non-empty stripped `<li>`/`<p>` texts of the
entry. -/
def entryNoteStream (e : Entry) : List String :=
  (e.pTexts.filter (fun t => pyLower t = "xd note")).flatMap
    (fun _ => e.liPTexts.filter (fun t => t ≠ ""))

/-- All texts scanned by `extract_xd_note`, in encounter order. -/
def noteStream (doc : Document) : List String :=
  doc.entries.flatMap entryNoteStream

/-- The stripped texts of all paragraphs inside table-cell entries, in
document order (the stream scanned by
`extract_premise_and_requirement`). -/
def pStream (doc : Document) : List String :=
  doc.entries.flatMap Entry.pTexts

/-- Transformation applied by the code to a premise paragraph: remove
every occurrence of `"Premise:"`, then strip. -/
def premTrans (text : String) : String :=
  pyStrip (pyReplace text "Premise:" "")

/-- Transformation applied by the code to a requirement paragraph:
remove every occurrence of `"Requirement:"`, then strip. -/
def reqTrans (text : String) : String :=
  pyStrip (pyReplace text "Requirement:" "")

/-- Transformation the claim describes for a requirement paragraph:
strip only the leading `"Requirement:"` prefix, then trim. -/
def reqTransClaim (text : String) : String :=
  pyStrip ⟨text.data.drop ("Requirement:".data.length)⟩

/-- Transformation the claim describes for a premise paragraph. -/
def premTransClaim (text : String) : String :=
  pyStrip ⟨text.data.drop ("Premise:".data.length)⟩

/-- Step function `eprStep` as the claim reads it: remainder with the leading prefix
stripped, rather than all occurrences removed. -/
def eprStepClaim (acc : String × String) (text : String) : String × String :=
  if pyStartsWith text "Premise:" then
    (premTransClaim text, acc.2)
  else if pyStartsWith text "Requirement:" then
    (acc.1, acc.2 ++ reqTransClaim text ++ "\n")
  else acc

/-- Function `epr_core` as the claim reads it (differs only in the paragraph
transformations). -/
def epr_claim (doc : Document) : String :=
  let st := doc.entries.foldl (fun acc entry => entry.pTexts.foldl eprStepClaim acc) ("", "")
  "Premise:\n" ++ st.1 ++ "\nRequirement:\n" ++ pyStrip st.2

/-! ## Generic lemmas about the loop shapes -/

/-- A fold that conditionally appends one element is a `filterMap`. -/
theorem foldl_opt_append {α β : Type} (step : List β → α → List β) (f : α → Option β)
    (hstep : ∀ acc x, step acc x = match f x with | some b => acc ++ [b] | none => acc)
    (l : List α) (acc : List β) :
    l.foldl step acc = acc ++ l.filterMap f := by
  induction l generalizing acc with
  | nil => simp
  | cons x xs ih =>
    simp only [List.foldl_cons, List.filterMap_cons, hstep]
    cases h : f x with
    | none => simpa using ih acc
    | some b => simpa [List.append_assoc] using ih (acc ++ [b])

/-- Function `extract_section_content` in declarative form. -/
theorem extract_section_content_eq (doc : Document) (section_name : String) :
    extract_section_content doc section_name =
      String.intercalate "\n" (doc.dlentries.filterMap (sectionSelect section_name)) := by
  unfold extract_section_content
  rw [foldl_opt_append _ (sectionSelect section_name)]
  · simp
  · intro acc e
    unfold sectionSelect
    rcases e with ⟨dt, dd⟩
    cases dt <;> cases dd <;> simp <;> split <;> simp

/-- The step-record loop in declarative form: one record per
qualifying term, in document order. -/
theorem tc_custom_fields_eq (doc : Document) :
    tc_custom_fields doc = (qualifyingTerms doc).map (stepRecordFor doc) := by
  unfold tc_custom_fields qualifyingTerms
  rw [foldl_opt_append _
        (fun dlentry => match dlentry.dt with
          | some dt =>
            if pyStartsWith (pyStrip dt) "R" then some (stepRecordFor doc (pyStrip dt))
            else none
          | none => none),
      List.map_filterMap]
  · apply congrArg
    apply List.filterMap_congr
    intro e _
    rcases e with ⟨dt, dd⟩
    cases dt <;> simp <;> split <;> simp
  · intro acc e
    rcases e with ⟨dt, dd⟩
    cases dt <;> simp [stepRecordFor] <;> split <;> simp [stepRecordFor]

/-- C9: for a fixed parsed document, the three section-content lookups
are pure, so hoisting them out of the per-term loop (computing them once
before the loop) produces exactly the same list of step records as the
implementation's per-term recomputation. -/
theorem claim_C9 (doc : Document) :
    tc_custom_fields_hoisted doc = tc_custom_fields doc := rfl

/-- The row loop of `process_folder` in declarative form: it filters
and maps the matched pairs one at a time, each pair independently. -/
theorem process_folder_data_eq (listing : List String)
    (read : String → Except String Document) :
    process_folder_data listing read =
      (matched_files listing).filterMap
        (fun pr => pair_row pr.1 pr.2 (read pr.1) (read pr.2)) := by
  unfold process_folder_data
  rw [foldl_opt_append _ (fun pr => pair_row pr.1 pr.2 (read pr.1) (read pr.2))]
  · simp
  · intro acc pr
    cases pair_row pr.1 pr.2 (read pr.1) (read pr.2) <;> rfl

/-- C7: an exception while extracting a single file (modelled by an
`Except.error` input carrying the exception message) is caught: the
function logs the file path and message and returns the degraded result
(empty string for the two string extractors, the all-`None` tuple for
the two parsers); the row loop processes pairs independently, an
erroring pair merely yields no row, and the run is never aborted. -/
theorem claim_C7 :
    (∀ p e, extract_premise_and_requirement p (Except.error e) =
      ("", ["Error extracting Premise and Requirement from " ++ p ++ ": " ++ e]))
    ∧ (∀ p e, extract_xd_note p (Except.error e) =
        ("", ["Error extracting xd Notes from " ++ p ++ ": " ++ e]))
    ∧ (∀ p e, parse_dita p (Except.error e) =
        (none, ["Error parsing " ++ p ++ ": " ++ e]))
    ∧ (∀ p e, parse_testcase_dita p (Except.error e) =
        (none, ["Error parsing " ++ p ++ ": " ++ e]))
    ∧ (∀ listing read, process_folder_data listing read =
        (matched_files listing).filterMap
          (fun pr => pair_row pr.1 pr.2 (read pr.1) (read pr.2)))
    ∧ (∀ bp tp e ti, pair_row bp tp (Except.error e) ti = none)
    ∧ (∀ bp tp bi e, pair_row bp tp bi (Except.error e) = none) := by
  refine ⟨fun p e => rfl, fun p e => rfl, fun p e => rfl, fun p e => rfl,
    process_folder_data_eq, fun bp tp e ti => rfl, fun bp tp bi e => ?_⟩
  cases bi <;> rfl

/-- C3: each definition-list entry whose stripped term text starts with
"R" produces exactly one step record, in document order, with
Action `"*<term>*\n<procedures>"`, Data `"*Notes:*\n<notes>"` and
Expected Result the expected-results text, where each section text is
the newline-join of the stripped descriptions of all definition-list
entries of the whole document whose stripped term contains the section
name case-insensitively. -/
theorem claim_C3 (doc : Document) :
    tc_custom_fields doc = (qualifyingTerms doc).map (stepRecordFor doc)
    ∧ ∀ section_name, extract_section_content doc section_name =
        String.intercalate "\n" (doc.dlentries.filterMap (sectionSelect section_name)) :=
  ⟨tc_custom_fields_eq doc, fun section_name => extract_section_content_eq doc section_name⟩

/-! ## The premise/requirement fold, declaratively -/

/-- Concatenation of a list of strings. -/
def strConcat : List String → String
  | [] => ""
  | s :: rest => s ++ strConcat rest

/-- The paragraph texts the code treats as premise paragraphs. -/
def premTextsOf (doc : Document) : List String :=
  (pStream doc).filter (fun t => pyStartsWith t "Premise:")

/-- The paragraph texts the code treats as requirement paragraphs
(the `elif` makes premise paragraphs take precedence). -/
def reqTextsOf (doc : Document) : List String :=
  (pStream doc).filter
    (fun t => !(pyStartsWith t "Premise:") && pyStartsWith t "Requirement:")

/-- A fold of a nested loop equals the fold over the flattened
stream. -/
theorem foldl_over_flat {α β γ : Type} (g : α → List β) (f : γ → β → γ)
    (l : List α) (init : γ) :
    l.foldl (fun acc x => (g x).foldl f acc) init = (l.flatMap g).foldl f init := by
  induction l generalizing init with
  | nil => simp
  | cons x xs ih => simp [List.flatMap_cons, List.foldl_append, ih]

/-- Characterization of the premise/requirement fold: the premise is
the transform of the last premise paragraph (overwrite semantics), the
requirement accumulates the transforms of the requirement paragraphs in
order, each followed by a newline. -/
theorem eprFold_eq (ts : List String) (pr rq : String) :
    ts.foldl eprStep (pr, rq) =
      (((ts.filter (fun t => pyStartsWith t "Premise:")).map premTrans).getLastD pr,
       rq ++ strConcat
         ((ts.filter (fun t => !(pyStartsWith t "Premise:") && pyStartsWith t "Requirement:")).map
           (fun t => reqTrans t ++ "\n"))) := by
  induction ts generalizing pr rq with
  | nil => simp [strConcat]
  | cons t ts ih =>
    by_cases h1 : pyStartsWith t "Premise:" = true
    · rw [List.foldl_cons,
        show eprStep (pr, rq) t = (premTrans t, rq) from by simp [eprStep, h1, premTrans],
        ih, List.filter_cons_of_pos (by simpa using h1),
        List.filter_cons_of_neg (by simp [h1]), List.map_cons, List.getLastD_cons]
    · by_cases h2 : pyStartsWith t "Requirement:" = true
      · rw [List.foldl_cons,
          show eprStep (pr, rq) t = (pr, rq ++ reqTrans t ++ "\n") from by
            simp [eprStep, h1, h2, reqTrans],
          ih, List.filter_cons_of_neg (by simp [h1]),
          List.filter_cons_of_pos (by simp [h1, h2]), List.map_cons]
        refine Prod.ext rfl ?_
        show _ = rq ++ (reqTrans t ++ "\n" ++ strConcat _)
        rw [← String.append_assoc, ← String.append_assoc]
      · rw [List.foldl_cons,
          show eprStep (pr, rq) t = (pr, rq) from by simp [eprStep, h1, h2],
          ih, List.filter_cons_of_neg (by simp [h1]),
          List.filter_cons_of_neg (by simp [h1, h2])]

/-- Function `epr_core` in declarative form. -/
theorem epr_core_eq (doc : Document) :
    epr_core doc =
      "Premise:\n" ++ ((premTextsOf doc).map premTrans).getLastD ""
        ++ "\nRequirement:\n"
        ++ pyStrip (strConcat ((reqTextsOf doc).map (fun t => reqTrans t ++ "\n"))) := by
  unfold epr_core premTextsOf reqTextsOf pStream
  rw [foldl_over_flat Entry.pTexts eprStep, eprFold_eq]
  rfl

/-- The document of the claim's worked example: one table-cell entry
with paragraphs `"Premise: A"`, `"Requirement: B"`, `"Requirement: C"`. -/
def c2ExampleDoc : Document :=
  { title := none, dlentries := [],
    entries := [⟨[⟨ItemTag.p, "Premise: A"⟩, ⟨ItemTag.p, "Requirement: B"⟩,
                  ⟨ItemTag.p, "Requirement: C"⟩]⟩] }

/-- A document whose requirement paragraph contains the literal prefix
a second time, separating the code's all-occurrence `str.replace` from
the claim's strip-the-leading-prefix reading. -/
def c2CexDoc : Document :=
  { title := none, dlentries := [],
    entries := [⟨[⟨ItemTag.p, "Requirement: X Requirement: Y"⟩]⟩] }

/-- C2 as amended: a paragraph whose stripped text starts with
`"Premise:"` sets the premise with overwrite semantics (last wins), its
value the text with every occurrence of `"Premise:"` removed and then
trimmed; a paragraph starting with `"Requirement:"` appends the text
with every occurrence of `"Requirement:"` removed and then trimmed,
plus a newline, in document order (`str.replace` removes all
occurrences, not just the leading prefix); the result is
`"Premise:\n<premise>\nRequirement:\n<requirements trimmed>"`, and on
the example paragraphs the output is
`"Premise:\nA\nRequirement:\nB\nC"`. -/
theorem claim_C2 :
    (∀ path doc, extract_premise_and_requirement path (Except.ok doc) =
      ("Premise:\n" ++ ((premTextsOf doc).map premTrans).getLastD ""
        ++ "\nRequirement:\n"
        ++ pyStrip (strConcat ((reqTextsOf doc).map (fun t => reqTrans t ++ "\n"))), []))
    ∧ extract_premise_and_requirement "base.dita" (Except.ok c2ExampleDoc) =
        ("Premise:\nA\nRequirement:\nB\nC", []) := by
  constructor
  · intro path doc
    show (epr_core doc, []) = _
    rw [epr_core_eq]
  · decide

/-- C2 counterexample: on `c2CexDoc` the code removes both occurrences
of `"Requirement:"` from the paragraph, while the claim's reading
(strip the leading prefix only) keeps the inner one, so the claim as
stated does not hold. -/
theorem claim_C2_counterexample :
    epr_core c2CexDoc = "Premise:\n\nRequirement:\nX  Y"
    ∧ epr_claim c2CexDoc = "Premise:\n\nRequirement:\nX Requirement: Y"
    ∧ epr_core c2CexDoc ≠ epr_claim c2CexDoc := by
  refine ⟨by decide, by decide, by decide⟩

/-! ## The note-collection fold, declaratively -/

/-- Splitting the deduplicated stream at an append. -/
theorem dedupFirstAux_append (xs ys : List String) (seen : List String) :
    dedupFirstAux seen (xs ++ ys) =
      dedupFirstAux seen xs ++ dedupFirstAux (seen ++ dedupFirstAux seen xs) ys := by
  induction xs generalizing seen with
  | nil => simp [dedupFirstAux]
  | cons x xs ih =>
    by_cases h : x ∈ seen
    · simp [dedupFirstAux, h, ih]
    · simp [dedupFirstAux, h, ih (seen ++ [x]), List.append_assoc]

/-- Every scanned value ends up either in `seen` or in the output. -/
theorem mem_dedupFirstAux (xs : List String) (seen : List String) (x : String)
    (hx : x ∈ xs) : x ∈ seen ++ dedupFirstAux seen xs := by
  induction xs generalizing seen with
  | nil => cases hx
  | cons y ys ih =>
    by_cases h : y ∈ seen
    · rcases List.mem_cons.mp hx with rfl | hx'
      · simp [dedupFirstAux, h]
      · simpa [dedupFirstAux, h] using ih seen hx'
    · rcases List.mem_cons.mp hx with rfl | hx'
      · simp [dedupFirstAux, h]
      · have := ih (seen ++ [y]) hx'
        simp only [dedupFirstAux, h, if_false]
        simp only [List.mem_append] at this ⊢
        rcases this with (hs | rfl0) | hd
        · exact Or.inl hs
        · simp_all
        · simp [hd]

/-- The inner sibling-collection loop in terms of `dedupFirstAux`:
starting from lockstep state `(n, n)`, it appends the not-yet-seen
non-empty texts in order, to both components. -/
theorem xdCollect_eq (texts : List String) (n : List String) :
    xdCollect (n, n) texts =
      (n ++ dedupFirstAux n (texts.filter (fun t => t ≠ "")),
       n ++ dedupFirstAux n (texts.filter (fun t => t ≠ ""))) := by
  induction texts generalizing n with
  | nil => simp [xdCollect, dedupFirstAux]
  | cons t ts ih =>
    by_cases h0 : t = ""
    · have step : xdCollect (n, n) (t :: ts) = xdCollect (n, n) ts := by
        simp [xdCollect, h0]
      rw [step, ih]
      simp [List.filter_cons, h0]
    · by_cases h1 : t ∈ n
      · have step : xdCollect (n, n) (t :: ts) = xdCollect (n, n) ts := by
          simp [xdCollect, h1]
        rw [step, ih]
        simp [List.filter_cons, h0, dedupFirstAux, h1]
      · have step : xdCollect (n, n) (t :: ts) = xdCollect (n ++ [t], n ++ [t]) ts := by
          simp [xdCollect, h0, h1]
        rw [step, ih]
        simp [List.filter_cons, h0, dedupFirstAux, h1, List.append_assoc]

/-- One entry's scan in terms of `dedupFirstAux`: each marker paragraph
replays the entry's non-empty texts through the collection. -/
theorem xdEntryFold_eq (ps : List String) (lip : List String) (n : List String) :
    ps.foldl (fun st ptext => if pyLower ptext = "xd note" then xdCollect st lip else st) (n, n) =
      (n ++ dedupFirstAux n
        ((ps.filter (fun t => pyLower t = "xd note")).flatMap
          (fun _ => lip.filter (fun t => t ≠ ""))),
       n ++ dedupFirstAux n
        ((ps.filter (fun t => pyLower t = "xd note")).flatMap
          (fun _ => lip.filter (fun t => t ≠ "")))) := by
  induction ps generalizing n with
  | nil => simp [dedupFirstAux]
  | cons p ps ih =>
    by_cases h : pyLower p = "xd note"
    · rw [List.foldl_cons]
      have step : (if pyLower p = "xd note" then xdCollect (n, n) lip else (n, n)) =
          xdCollect (n, n) lip := by simp [h]
      rw [step, xdCollect_eq, ih]
      simp [List.filter_cons, h, List.flatMap_cons, dedupFirstAux_append, List.append_assoc]
    · rw [List.foldl_cons]
      have step : (if pyLower p = "xd note" then xdCollect (n, n) lip else (n, n)) = (n, n) := by
        simp [h]
      rw [step, ih]
      simp [List.filter_cons, h]

/-- The whole entry loop in terms of `dedupFirstAux`. -/
theorem xd_fold_eq (entries : List Entry) (n : List String) :
    entries.foldl xdEntryStep (n, n) =
      (n ++ dedupFirstAux n (entries.flatMap entryNoteStream),
       n ++ dedupFirstAux n (entries.flatMap entryNoteStream)) := by
  induction entries generalizing n with
  | nil => simp [dedupFirstAux]
  | cons e es ih =>
    rw [List.foldl_cons,
      show xdEntryStep (n, n) e =
        (n ++ dedupFirstAux n (entryNoteStream e),
         n ++ dedupFirstAux n (entryNoteStream e)) from xdEntryFold_eq e.pTexts e.liPTexts n,
      ih]
    simp [List.flatMap_cons, dedupFirstAux_append, List.append_assoc]

/-- The collected note list is exactly the deduplicated scan stream. -/
theorem xd_note_list_eq (doc : Document) :
    xd_note_list doc = dedupFirst (noteStream doc) := by
  unfold xd_note_list dedupFirst noteStream
  rw [xd_fold_eq]
  simp

/-- C5: note extraction returns the scanned note texts as an ordered,
case-sensitively deduplicated list (first occurrence wins, across all
marker-bearing table-cell entries) joined by newlines; on the stream
`["x", "y", "x", "z"]` the deduplicated list is `["x", "y", "z"]`. -/
theorem claim_C5 :
    (∀ path doc, extract_xd_note path (Except.ok doc) =
      (String.intercalate "\n" (dedupFirst (noteStream doc)), []))
    ∧ dedupFirst ["x", "y", "x", "z"] = ["x", "y", "z"] := by
  constructor
  · intro path doc
    show (xd_note_core doc, []) = _
    unfold xd_note_core
    rw [xd_note_list_eq]
  · decide

/-- C6: once an entry contains a marker paragraph (stripped, lowered
text `"xd note"`), the collection scan covers all `<li>`/`<p>`
descendants of the entry including the marker paragraph itself, so the
marker's own stripped text is collected into the output list. -/
theorem claim_C6 (doc : Document) (e : Entry) (it : Item)
    (he : e ∈ doc.entries) (hit : it ∈ e.items) (htag : it.tag = ItemTag.p)
    (hmark : pyLower (pyStrip it.text) = "xd note") :
    pyStrip it.text ∈ xd_note_list doc := by
  rw [xd_note_list_eq]
  have hne : pyStrip it.text ≠ "" := by
    intro h
    rw [h] at hmark
    exact absurd hmark (by decide)
  have hstream : pyStrip it.text ∈ noteStream doc := by
    unfold noteStream entryNoteStream
    rw [List.mem_flatMap]
    refine ⟨e, he, ?_⟩
    rw [List.mem_flatMap]
    refine ⟨pyStrip it.text, ?_, ?_⟩
    · rw [List.mem_filter]
      refine ⟨?_, by simpa using hmark⟩
      unfold Entry.pTexts
      exact List.mem_map.mpr ⟨it, List.mem_filter.mpr ⟨hit, by simp [htag]⟩, rfl⟩
    · rw [List.mem_filter]
      refine ⟨?_, by simpa using hne⟩
      unfold Entry.liPTexts
      exact List.mem_map.mpr ⟨it, hit, rfl⟩
  have := mem_dedupFirstAux (noteStream doc) [] (pyStrip it.text) hstream
  simpa [dedupFirst] using this

/-- Concrete document for the C6 witness: one entry holding a marker
paragraph (with surrounding whitespace and mixed case) and one list
item. -/
def c6WitnessDoc : Document :=
  { title := none, dlentries := [],
    entries := [⟨[⟨ItemTag.p, " Xd Note "⟩, ⟨ItemTag.li, "x"⟩]⟩] }

/-- Witness for C6 at a concrete document. -/
theorem claim_C6_witness :
    pyStrip " Xd Note " ∈ xd_note_list c6WitnessDoc :=
  claim_C6 c6WitnessDoc ⟨[⟨ItemTag.p, " Xd Note "⟩, ⟨ItemTag.li, "x"⟩]⟩
    ⟨ItemTag.p, " Xd Note "⟩ (by decide) (by decide) rfl (by decide)

/-! ## Pairing lemmas -/

/-- A string that ends with `sfx` is the suffix-stripped part followed
by `sfx`. -/
theorem pyDropSuffix_append_cancel (f sfx : String) (h : pyEndsWith f sfx = true) :
    pyDropSuffix f sfx ++ sfx = f := by
  obtain ⟨pre, hpre⟩ := List.isSuffixOf_iff_suffix.mp h
  apply String.ext
  rw [String.data_append]
  show (f.data.take (f.data.length - sfx.data.length)) ++ sfx.data = f.data
  rw [← hpre, List.length_append, Nat.add_sub_cancel, List.take_left]

/-- The testcase suffix ends with the plain extension. -/
theorem pyEndsWith_dita_of_testcase (f : String)
    (h : pyEndsWith f "_testcase.dita" = true) : pyEndsWith f ".dita" = true := by
  have h1 : (".dita".data).isSuffixOf ("_testcase.dita".data) = true := by decide
  exact List.isSuffixOf_iff_suffix.mpr
    ((List.isSuffixOf_iff_suffix.mp h1).trans (List.isSuffixOf_iff_suffix.mp h))

/-- Appending the extension yields a string ending with it. -/
theorem pyEndsWith_append_dita (k : String) : pyEndsWith (k ++ ".dita") ".dita" = true := by
  apply List.isSuffixOf_iff_suffix.mpr
  rw [String.data_append]
  exact List.suffix_append _ _

/-- Membership in the `base_files` dict fold.  Because the key function
(stripping the fixed suffix) is injective on strings ending with that
suffix, a dict overwrite can only rewrite an entry with itself, so
membership is insertion of each processed file under its key. -/
theorem dict_fold_mem (sfx : String) (l : List String) (d : List (String × String))
    (hl : ∀ f ∈ l, pyEndsWith f sfx = true)
    (hd : ∀ q ∈ d, pyEndsWith q.2 sfx = true ∧ q.1 = pyDropSuffix q.2 sfx)
    (k v : String) :
    ((k, v) ∈ l.foldl (fun d f => dictInsert d (pyDropSuffix f sfx) f) d
      ↔ ((k, v) ∈ d ∨ (v ∈ l ∧ k = pyDropSuffix v sfx))) := by
  induction l generalizing d with
  | nil => simp
  | cons f fs ih =>
    rw [List.foldl_cons]
    have hf : pyEndsWith f sfx = true := hl f (List.mem_cons_self f fs)
    have hval : ∀ q ∈ d, q.1 = pyDropSuffix f sfx → q.2 = f := by
      intro q hq hqk
      calc q.2 = pyDropSuffix q.2 sfx ++ sfx :=
            (pyDropSuffix_append_cancel _ _ (hd q hq).1).symm
        _ = q.1 ++ sfx := by rw [← (hd q hq).2]
        _ = pyDropSuffix f sfx ++ sfx := by rw [hqk]
        _ = f := pyDropSuffix_append_cancel _ _ hf
    have hins_mem : ∀ k' v', ((k', v') ∈ dictInsert d (pyDropSuffix f sfx) f ↔
        ((k', v') ∈ d ∨ (k' = pyDropSuffix f sfx ∧ v' = f))) := by
      intro k' v'
      unfold dictInsert
      by_cases hocc : d.any (fun q => decide (q.1 = pyDropSuffix f sfx)) = true
      · rw [if_pos hocc]
        have hex : ∃ q ∈ d, q.1 = pyDropSuffix f sfx := by simpa using hocc
        obtain ⟨q, hq, hqk⟩ := hex
        have hmapid : d.map
            (fun q => if q.1 = pyDropSuffix f sfx then (pyDropSuffix f sfx, f) else q) = d := by
          have hcongr : ∀ q ∈ d,
              (if q.1 = pyDropSuffix f sfx then (pyDropSuffix f sfx, f) else q) = q := by
            intro q hq
            by_cases hk : q.1 = pyDropSuffix f sfx
            · rw [if_pos hk, ← hk, ← hval q hq hk]
            · rw [if_neg hk]
          rw [List.map_congr_left hcongr]
          simp
        rw [hmapid]
        constructor
        · exact Or.inl
        · rintro (h | ⟨hk1, hv1⟩)
          · exact h
          · have hq2 : q.2 = f := hval q hq hqk
            have hpair : ((k', v') : String × String) = q := by
              rw [hk1, hv1, ← hqk, ← hq2]
            rw [hpair]
            exact hq
      · rw [if_neg hocc]
        simp [Prod.ext_iff]
    have hd' : ∀ q ∈ dictInsert d (pyDropSuffix f sfx) f,
        pyEndsWith q.2 sfx = true ∧ q.1 = pyDropSuffix q.2 sfx := by
      intro q hq
      rcases (hins_mem q.1 q.2).mp hq with hq' | ⟨hk, hv⟩
      · exact hd q hq'
      · refine ⟨?_, ?_⟩
        · rw [hv]; exact hf
        · rw [hk, hv]
    rw [ih (dictInsert d (pyDropSuffix f sfx) f)
          (fun f' hf' => hl f' (List.mem_cons_of_mem _ hf')) hd',
        hins_mem k v]
    constructor
    · rintro ((h | ⟨rfl, rfl⟩) | ⟨hv, rfl⟩)
      · exact Or.inl h
      · exact Or.inr ⟨List.mem_cons_self _ _, rfl⟩
      · exact Or.inr ⟨List.mem_cons_of_mem _ hv, rfl⟩
    · rintro (h | ⟨hv, rfl⟩)
      · exact Or.inl (Or.inl h)
      · rcases List.mem_cons.mp hv with rfl | hv'
        · exact Or.inl (Or.inr ⟨rfl, rfl⟩)
        · exact Or.inr ⟨hv', rfl⟩

/-- Membership in `base_files`. -/
theorem base_files_mem (files : List String) (k v : String) :
    (k, v) ∈ base_files files ↔
      (v ∈ files ∧ pyEndsWith v "_testcase.dita" = true
        ∧ k = pyDropSuffix v "_testcase.dita") := by
  unfold base_files
  rw [dict_fold_mem "_testcase.dita" _ []
        (fun f hf => (List.mem_filter.mp hf).2) (by simp) k v]
  simp only [List.not_mem_nil, false_or, List.mem_filter]
  tauto

/-- Membership in `matched_files`: a pair is emitted exactly when the
testcase file is listed and the base file (its name with the testcase
suffix replaced by the extension) is listed too. -/
theorem matched_files_mem (listing : List String) (b t : String) :
    (b, t) ∈ matched_files listing ↔
      (t ∈ listing ∧ pyEndsWith t "_testcase.dita" = true
        ∧ b = pyDropSuffix t "_testcase.dita" ++ ".dita" ∧ b ∈ listing) := by
  unfold matched_files
  simp only [List.mem_filterMap]
  constructor
  · rintro ⟨⟨k, v⟩, hmem, hif⟩
    rcases List.mem_filter.mp ((base_files_mem _ k v).mp hmem).1 with ⟨hvl, _⟩
    obtain ⟨-, hvt, hkey⟩ := (base_files_mem _ k v).mp hmem
    by_cases hin : (k ++ ".dita") ∈ listing.filter (fun f => pyEndsWith f ".dita")
    · rw [if_pos hin] at hif
      obtain ⟨hb, ht⟩ := Prod.mk.injEq .. ▸ Option.some.injEq .. ▸ hif
      refine ⟨?_, ?_, ?_, ?_⟩
      · rw [← ht]; exact hvl
      · rw [← ht]; exact hvt
      · rw [← hb, ← ht, hkey]
      · rw [← hb]; exact (List.mem_filter.mp hin).1
    · rw [if_neg hin] at hif
      cases hif
  · rintro ⟨ht, hends, rfl, hb⟩
    refine ⟨(pyDropSuffix t "_testcase.dita", t), ?_, ?_⟩
    · exact (base_files_mem _ _ _).mpr
        ⟨List.mem_filter.mpr ⟨ht, pyEndsWith_dita_of_testcase t hends⟩, hends, rfl⟩
    · rw [if_pos (List.mem_filter.mpr ⟨hb, pyEndsWith_append_dita _⟩)]

/-- C4: a pair is emitted exactly when a listed file ends with
`"_testcase.dita"` and the file named with that suffix stripped and
`".dita"` appended is present in the same listing; on the listing
`["foo.dita", "foo_testcase.dita", "bar_testcase.dita"]` exactly the
single pair `("foo.dita", "foo_testcase.dita")` is produced. -/
theorem claim_C4 :
    (∀ listing b t, (b, t) ∈ matched_files listing ↔
      (t ∈ listing ∧ pyEndsWith t "_testcase.dita" = true
        ∧ b = pyDropSuffix t "_testcase.dita" ++ ".dita" ∧ b ∈ listing))
    ∧ matched_files ["foo.dita", "foo_testcase.dita", "bar_testcase.dita"] =
        [("foo.dita", "foo_testcase.dita")] :=
  ⟨matched_files_mem, by decide⟩

/-! ## Row emission (claims C1 and C10) -/

/-- A base document with a usable title, for concrete runs. -/
def c1BaseDoc : Document :=
  { title := some "Base Title",
    dlentries := [⟨some "Env", some "linux"⟩],
    entries := [] }

/-- A testcase document with no `<title>` element at all. -/
def c1NoTitleDoc : Document :=
  { title := none, dlentries := [], entries := [] }

/-- A folder in which `a_testcase.dita` parses to a document without a
title element. -/
def c1Read : String → Except String Document :=
  fun f => if f = "a.dita" then Except.ok c1BaseDoc else Except.ok c1NoTitleDoc

/-- C1 counterexample: the testcase document of the pair has no title
element, yet the run emits one output row — the missing title falls
back to `"Unknown Title"`, which is truthy, so the claim's "no title
element yields no output row" is false on the code. -/
theorem claim_C1_counterexample :
    c1NoTitleDoc.title = none
    ∧ (process_folder_data ["a.dita", "a_testcase.dita"] c1Read).length = 1 :=
  ⟨rfl, by decide⟩

/-- C1 as amended: an output row is emitted for a pair iff both files
parsed successfully and both resolved titles are non-empty; a failed
parse (title `None`) skips the pair silently; but a testcase document
with no title element resolves to the truthy fallback
`"Unknown Title"` and therefore does yield a row when the base title is
truthy. -/
theorem claim_C1 :
    (∀ bp tp bdoc tdoc,
      pair_row bp tp (Except.ok bdoc) (Except.ok tdoc) ≠ none ↔
        (titleOf bdoc ≠ "" ∧ titleOf tdoc ≠ ""))
    ∧ (∀ bp tp e ti, pair_row bp tp (Except.error e) ti = none)
    ∧ (∀ bp tp bi e, pair_row bp tp bi (Except.error e) = none)
    ∧ (∀ bp tp bdoc tdoc, tdoc.title = none → titleOf bdoc ≠ "" →
        pair_row bp tp (Except.ok bdoc) (Except.ok tdoc) ≠ none) := by
  have main : ∀ bp tp bdoc tdoc,
      pair_row bp tp (Except.ok bdoc) (Except.ok tdoc) ≠ none ↔
        (titleOf bdoc ≠ "" ∧ titleOf tdoc ≠ "") := by
    intro bp tp bdoc tdoc
    by_cases h : titleOf bdoc ≠ "" ∧ titleOf tdoc ≠ ""
    · simp [pair_row, parse_dita, parse_testcase_dita, h]
    · simp [pair_row, parse_dita, parse_testcase_dita, h]
  refine ⟨main, fun bp tp e ti => rfl, fun bp tp bi e => ?_, fun bp tp bdoc tdoc hnone hb => ?_⟩
  · cases bi <;> rfl
  · refine (main bp tp bdoc tdoc).mpr ⟨hb, ?_⟩
    rw [show titleOf tdoc = "Unknown Title" from by unfold titleOf; rw [hnone]]
    decide

/-- Witness for the amended C1 at a concrete pair: base title truthy,
testcase document without a title element, row emitted. -/
theorem claim_C1_witness :
    pair_row "a.dita" "a_testcase.dita"
      (Except.ok c1BaseDoc) (Except.ok c1NoTitleDoc) ≠ none :=
  claim_C1.2.2.2 "a.dita" "a_testcase.dita" c1BaseDoc c1NoTitleDoc rfl (by decide)

/-! ## Non-interference of the Requirements description (claim C8) -/

/-- Two `dlentry` lists that agree everywhere, except that the
description of an entry whose lower-cased stripped term is
`"requirements"` may differ. -/
def dlReqDiff : List DLEntry → List DLEntry → Bool
  | [], [] => true
  | e1 :: l1, e2 :: l2 =>
    decide (e1.dt = e2.dt)
      && (decide (e1.dd = e2.dd)
          || match e1.dt with
             | some t => decide (pyLower (pyStrip t) = "requirements")
             | none => false)
      && dlReqDiff l1 l2
  | _, _ => false

/-- Two base documents that differ only in the description text of
Requirements entries. -/
def baseReqDiff (d1 d2 : Document) : Bool :=
  decide (d1.title = d2.title) && decide (d1.entries = d2.entries)
    && dlReqDiff d1.dlentries d2.dlentries

/-- The `parse_dita` fold preserves equality of the description and
premise components across a Requirements-only difference (only the
discarded requirements component can diverge). -/
theorem parseDita_fold_req (l1 : List DLEntry) : ∀ (l2 : List DLEntry),
    dlReqDiff l1 l2 = true →
    ∀ st1 st2 : List String × String × String, st1.1 = st2.1 → st1.2.1 = st2.2.1 →
      ((l1.foldl parseDitaStep st1).1 = (l2.foldl parseDitaStep st2).1
        ∧ (l1.foldl parseDitaStep st1).2.1 = (l2.foldl parseDitaStep st2).2.1) := by
  induction l1 with
  | nil =>
    intro l2 hrel st1 st2 h1 h2
    cases l2 with
    | nil => exact ⟨h1, h2⟩
    | cons e2 t2 => exact absurd hrel (by simp [dlReqDiff])
  | cons e1 t1 ih =>
    intro l2 hrel st1 st2 h1 h2
    cases l2 with
    | nil => exact absurd hrel (by simp [dlReqDiff])
    | cons e2 t2 =>
      rw [show dlReqDiff (e1 :: t1) (e2 :: t2) =
            (decide (e1.dt = e2.dt)
              && (decide (e1.dd = e2.dd)
                  || match e1.dt with
                     | some t => decide (pyLower (pyStrip t) = "requirements")
                     | none => false)
              && dlReqDiff t1 t2) from rfl] at hrel
      simp only [Bool.and_eq_true, Bool.or_eq_true, decide_eq_true_eq] at hrel
      obtain ⟨⟨hdt, hdd⟩, hrest⟩ := hrel
      rw [List.foldl_cons, List.foldl_cons]
      apply ih t2 hrest
      all_goals {
        rcases e1 with ⟨dt1, dd1⟩
        rcases e2 with ⟨dt2, dd2⟩
        simp only at hdt
        subst hdt
        rcases hdd with hdd | hreq
        · simp only at hdd
          subst hdd
          cases dt1 with
          | none => simp [parseDitaStep, h1, h2]
          | some t =>
            cases dd1 with
            | none => simp [parseDitaStep, h1, h2]
            | some b =>
              simp only [parseDitaStep]
              split
              · simp [h1, h2]
              · split
                · simp [h1, h2]
                · simp [h1, h2]
        · rcases dt1 with _ | ⟨t⟩
          · exact absurd hreq (by simp)
          · have hreq' : pyLower (pyStrip t) = "requirements" := by simpa using hreq
            cases dd1 with
            | none =>
              cases dd2 with
              | none => simp [parseDitaStep, h1, h2]
              | some b2 =>
                simp only [parseDitaStep, hreq']
                simp [h1, h2]
            | some b1 =>
              cases dd2 with
              | none =>
                simp only [parseDitaStep, hreq']
                simp [h1, h2]
              | some b2 =>
                simp only [parseDitaStep, hreq']
                simp [h1, h2]
      }

/-- Evaluation of `parse_dita` on a successfully parsed document, componentwise. -/
theorem parse_dita_components (p : String) (d : Document) :
    parse_dita p (Except.ok d) =
      (some (titleOf d,
        String.intercalate "\n\n" (d.dlentries.foldl parseDitaStep ([], "", "")).1,
        (d.dlentries.foldl parseDitaStep ([], "", "")).2.1,
        (d.dlentries.foldl parseDitaStep ([], "", "")).2.2), []) := rfl

/-- C8: the output row of a pair does not depend on the requirements
value returned by the base-document extractor — `parse_dita`'s fourth
component is discarded, so two base documents that differ only in the
description of a `"requirements"` definition-list entry assemble
identical rows (whatever the testcase file contains). -/
theorem claim_C8 (bp tp : String) (d1 d2 : Document) (ti : Except String Document)
    (hrel : baseReqDiff d1 d2 = true) :
    pair_row bp tp (Except.ok d1) ti = pair_row bp tp (Except.ok d2) ti := by
  have hparts : d1.title = d2.title ∧ d1.entries = d2.entries
      ∧ dlReqDiff d1.dlentries d2.dlentries = true := by
    simpa [baseReqDiff, Bool.and_eq_true, decide_eq_true_eq, and_assoc] using hrel
  obtain ⟨htitle, hentries, hdl⟩ := hparts
  have hepr : epr_core d1 = epr_core d2 := by
    unfold epr_core
    rw [hentries]
  have htOf : titleOf d1 = titleOf d2 := by
    unfold titleOf
    rw [htitle]
  have hfold := parseDita_fold_req d1.dlentries d2.dlentries hdl ([], "", "") ([], "", "") rfl rfl
  cases ti with
  | error e => rfl
  | ok tdoc =>
    unfold pair_row extract_premise_and_requirement
    rw [parse_dita_components, parse_dita_components]
    simp only
    rw [hepr, htOf, hfold.1, hfold.2]
    cases (parse_testcase_dita tp (Except.ok tdoc)).1 with
    | none => rfl
    | some trip => rfl

/-- First base document for the C8 witness. -/
def c8Doc1 : Document :=
  { title := some "T",
    dlentries := [⟨some "Requirements", some "old text"⟩, ⟨some "Env", some "linux"⟩],
    entries := [⟨[⟨ItemTag.p, "Premise: A"⟩]⟩] }

/-- Second base document for the C8 witness: identical except for the
Requirements description. -/
def c8Doc2 : Document :=
  { title := some "T",
    dlentries := [⟨some "Requirements", some "new text"⟩, ⟨some "Env", some "linux"⟩],
    entries := [⟨[⟨ItemTag.p, "Premise: A"⟩]⟩] }

/-- Testcase document for the C8 witness. -/
def c8TcDoc : Document :=
  { title := some "TC", dlentries := [⟨some "R1", some "step"⟩], entries := [] }

/-- Witness for C8 at concrete documents. -/
theorem claim_C8_witness :
    pair_row "b.dita" "b_testcase.dita" (Except.ok c8Doc1) (Except.ok c8TcDoc) =
      pair_row "b.dita" "b_testcase.dita" (Except.ok c8Doc2) (Except.ok c8TcDoc) :=
  claim_C8 "b.dita" "b_testcase.dita" c8Doc1 c8Doc2 (Except.ok c8TcDoc) (by decide)

/-- C10: a present title element is returned stripped (even when that
leaves the empty string) — the `"Unknown Title"` fallback applies only
when no title element exists — and a pair whose base or testcase title
strips to the empty string is omitted from the output. -/
theorem claim_C10 :
    (∀ doc t, doc.title = some t → titleOf doc = pyStrip t)
    ∧ (∀ doc, doc.title = none → titleOf doc = "Unknown Title")
    ∧ (∀ p doc, Option.map (fun r => r.1) (parse_dita p (Except.ok doc)).1 =
        some (titleOf doc))
    ∧ (∀ p doc, Option.map (fun r => r.1) (parse_testcase_dita p (Except.ok doc)).1 =
        some (titleOf doc))
    ∧ (∀ bp tp bdoc tdoc t, bdoc.title = some t → pyStrip t = "" →
        pair_row bp tp (Except.ok bdoc) (Except.ok tdoc) = none)
    ∧ (∀ bp tp bdoc tdoc t, tdoc.title = some t → pyStrip t = "" →
        pair_row bp tp (Except.ok bdoc) (Except.ok tdoc) = none) := by
  refine ⟨?_, ?_, fun p doc => rfl, fun p doc => rfl, ?_, ?_⟩
  · intro doc t ht
    unfold titleOf
    rw [ht]
  · intro doc ht
    unfold titleOf
    rw [ht]
  · intro bp tp bdoc tdoc t ht hstrip
    have hb : titleOf bdoc = "" := by
      unfold titleOf
      rw [ht]
      exact hstrip
    simp [pair_row, parse_dita, parse_testcase_dita, hb]
  · intro bp tp bdoc tdoc t ht hstrip
    have htt : titleOf tdoc = "" := by
      unfold titleOf
      rw [ht]
      exact hstrip
    simp [pair_row, parse_dita, parse_testcase_dita, htt]

/-- A document whose title element holds only whitespace. -/
def c10WsDoc : Document :=
  { title := some "   ", dlentries := [], entries := [] }

/-- A companion document with a usable title, for the C10 witness. -/
def c10OtherDoc : Document :=
  { title := some "Other", dlentries := [], entries := [] }

/-- Witness for C10 at a concrete whitespace-only title. -/
theorem claim_C10_witness :
    titleOf c10WsDoc = pyStrip "   "
    ∧ pair_row "a.dita" "a_testcase.dita"
        (Except.ok c10WsDoc) (Except.ok c10OtherDoc) = none :=
  ⟨claim_C10.1 c10WsDoc "   " rfl,
   claim_C10.2.2.2.2.1 "a.dita" "a_testcase.dita" c10WsDoc c10OtherDoc "   " rfl (by decide)⟩
